import Mathlib

/-!
Verification of the OpenSearch-backed LangGraph store
(`langgraph_opensearch_store/store.py`) against its natural-language
specification.  Python strings are modelled as lists of characters,
Python dicts as insertion-ordered association lists, timestamps as
integers/rationals, and fallible engine calls as `Except` values whose
error branch models a raised exception.
-/

namespace OpenSearchStore

/-- Python strings, modelled as lists of characters. -/
abbrev Str := List Char

/-- The reserved separator `"::"` used by `_namespace_key` and `_document_id`. -/
def sep : Str := [':', ':']

/-- `_namespace_key(namespace)`, i.e. Python `"::".join(namespace)`. -/
def namespace_key : List Str → Str
  | [] => []
  | [s] => s
  | s :: rest => s ++ sep ++ namespace_key rest

/-- `_document_id(namespace, key)`, i.e. `f"{_namespace_key(namespace)}::{key}"`. -/
def document_id (ns : List Str) (key : Str) : Str :=
  namespace_key ns ++ sep ++ key

lemma namespace_key_cons (s : Str) (t : Str) (rest : List Str) :
    namespace_key (s :: t :: rest) = s ++ sep ++ namespace_key (t :: rest) := rfl

/-- Joining a namespace and then appending `"::" ++ key` is the same as joining
the namespace with the key appended as a final segment (nonempty namespaces). -/
lemma document_id_eq_join (ns : List Str) (key : Str) (h : ns ≠ []) :
    document_id ns key = namespace_key (ns ++ [key]) := by
  induction ns with
  | nil => exact absurd rfl h
  | cons x rest ih =>
    cases rest with
    | nil => rfl
    | cons y ys =>
      have hne : (y :: ys : List Str) ≠ [] := by simp
      have : namespace_key ((x :: y :: ys) ++ [key])
          = x ++ sep ++ namespace_key ((y :: ys) ++ [key]) := rfl
      rw [this, ← ih hne]
      simp [document_id, namespace_key_cons, List.append_assoc]

/-- A join of two or more segments always contains a colon. -/
lemma colon_mem_namespace_key (x : Str) (xs : List Str) (h : xs ≠ []) :
    ':' ∈ namespace_key (x :: xs) := by
  cases xs with
  | nil => exact absurd rfl h
  | cons y ys =>
    rw [namespace_key_cons]
    simp [sep]

/-- Cancellation for colon-free prefixes: if two colon-free strings followed by
a colon produce the same string, the prefixes and the tails agree. -/
lemma colonfree_sep_cancel (a : Str) (b u v : Str)
    (ha : ':' ∉ a) (hb : ':' ∉ b)
    (h : a ++ ':' :: u = b ++ ':' :: v) : a = b ∧ u = v := by
  induction a generalizing b with
  | nil =>
    cases b with
    | nil => simpa using h
    | cons c cs =>
      exfalso
      have hc : c = ':' := by
        have := congrArg (fun l => l.head?) h
        simpa using this.symm
      exact hb (by simp [hc])
  | cons c cs ih =>
    cases b with
    | nil =>
      exfalso
      have hc : c = ':' := by
        have := congrArg (fun l => l.head?) h
        simpa using this
      exact ha (by simp [hc])
    | cons d ds =>
      simp only [List.cons_append, List.cons.injEq] at h
      have ha' : ':' ∉ cs := fun hm => ha (List.mem_cons_of_mem _ hm)
      have hb' : ':' ∉ ds := fun hm => hb (List.mem_cons_of_mem _ hm)
      obtain ⟨hcd, htail⟩ := h
      obtain ⟨h1, h2⟩ := ih ds ha' hb' htail
      exact ⟨by rw [hcd, h1], h2⟩

/-- `namespace_key` is injective on nonempty lists of colon-free segments. -/
lemma namespace_key_inj (xs ys : List Str)
    (hx : xs ≠ []) (hy : ys ≠ [])
    (hcx : ∀ s ∈ xs, ':' ∉ s) (hcy : ∀ s ∈ ys, ':' ∉ s)
    (h : namespace_key xs = namespace_key ys) : xs = ys := by
  induction xs generalizing ys with
  | nil => exact absurd rfl hx
  | cons x xs ih =>
    cases ys with
    | nil => exact absurd rfl hy
    | cons y ys =>
      cases xs with
      | nil =>
        cases ys with
        | nil =>
          simp only [namespace_key] at h
          rw [h]
        | cons y2 ys2 =>
          exfalso
          have hmem : ':' ∈ namespace_key (y :: y2 :: ys2) :=
            colon_mem_namespace_key y (y2 :: ys2) (by simp)
          have hxfree : ':' ∉ x := hcx x (by simp)
          have : namespace_key [x] = x := rfl
          rw [this] at h
          exact hxfree (h ▸ hmem)
      | cons x2 xs2 =>
        cases ys with
        | nil =>
          exfalso
          have hmem : ':' ∈ namespace_key (x :: x2 :: xs2) :=
            colon_mem_namespace_key x (x2 :: xs2) (by simp)
          have hyfree : ':' ∉ y := hcy y (by simp)
          have : namespace_key [y] = y := rfl
          rw [this] at h
          exact hyfree (h ▸ hmem)
        | cons y2 ys2 =>
          rw [namespace_key_cons, namespace_key_cons] at h
          have h' : x ++ ':' :: (':' :: namespace_key (x2 :: xs2))
              = y ++ ':' :: (':' :: namespace_key (y2 :: ys2)) := by
            simpa [sep, List.append_assoc] using h
          have hxfree : ':' ∉ x := hcx x (by simp)
          have hyfree : ':' ∉ y := hcy y (by simp)
          obtain ⟨hxy, htail⟩ := colonfree_sep_cancel x y _ _ hxfree hyfree h'
          have htail' : namespace_key (x2 :: xs2) = namespace_key (y2 :: ys2) := by
            simpa using htail
          have hcx' : ∀ s ∈ x2 :: xs2, ':' ∉ s := fun s hs =>
            hcx s (List.mem_cons_of_mem _ hs)
          have hcy' : ∀ s ∈ y2 :: ys2, ':' ∉ s := fun s hs =>
            hcy s (List.mem_cons_of_mem _ hs)
          have := ih (y2 :: ys2) (by simp) (by simp) hcx' hcy' htail'
          rw [hxy, this]

/-- C6 counterexample: the code never rejects or escapes segments containing
the separator, so two distinct (namespace, key) pairs can share a document
identifier: `("a","b")/"k"` and `("a",)/"b::k"` both map to `"a::b::k"`. -/
theorem document_id_collision_counterexample :
    document_id [['a'], ['b']] ['k'] = document_id [['a']] ['b', ':', ':', 'k']
    ∧ ([['a'], ['b']], (['k'] : Str)) ≠ ([['a']], ['b', ':', ':', 'k']) := by
  constructor
  · rfl
  · decide

/-- C6 (amended): the document identifier is the deterministic `"::"`-join of
the namespace segments and the key; on nonempty namespaces whose segments and
keys are colon-free, the mapping from (namespace, key) to identifier is a
bijection onto its image, so writing the same (namespace, key) twice hits the
same identifier (idempotent overwrite) and distinct colon-free pairs never
collide.  (The code performs no rejection or escaping, so without the
colon-free restriction collisions are possible.) -/
theorem document_id_injective_amended (ns1 ns2 : List Str) (k1 k2 : Str)
    (h1 : ns1 ≠ []) (h2 : ns2 ≠ [])
    (hc1 : ∀ s ∈ ns1, ':' ∉ s) (hk1 : ':' ∉ k1)
    (hc2 : ∀ s ∈ ns2, ':' ∉ s) (hk2 : ':' ∉ k2) :
    document_id ns1 k1 = document_id ns2 k2 ↔ ns1 = ns2 ∧ k1 = k2 := by
  constructor
  · intro heq
    rw [document_id_eq_join ns1 k1 h1, document_id_eq_join ns2 k2 h2] at heq
    have hall1 : ∀ s ∈ ns1 ++ [k1], ':' ∉ s := by
      intro s hs
      rcases List.mem_append.mp hs with hs | hs
      · exact hc1 s hs
      · simp only [List.mem_singleton] at hs
        exact hs ▸ hk1
    have hall2 : ∀ s ∈ ns2 ++ [k2], ':' ∉ s := by
      intro s hs
      rcases List.mem_append.mp hs with hs | hs
      · exact hc2 s hs
      · simp only [List.mem_singleton] at hs
        exact hs ▸ hk2
    have hj := namespace_key_inj (ns1 ++ [k1]) (ns2 ++ [k2])
      (by simp) (by simp) hall1 hall2 heq
    have hlen : ([k1] : List Str).length = ([k2] : List Str).length := by simp
    obtain ⟨hns, hk⟩ := List.append_inj' hj hlen
    exact ⟨hns, by simpa using hk⟩
  · rintro ⟨hns, hk⟩
    rw [hns, hk]

/-- Witness for the amended C6 theorem at concrete colon-free inputs. -/
theorem document_id_injective_witness :
    document_id [['a'], ['b']] ['k'] = document_id [['a']] ['c']
      ↔ [['a'], ['b']] = [['a']] ∧ (['k'] : Str) = ['c'] :=
  document_id_injective_amended [['a'], ['b']] [['a']] ['k'] ['c']
    (by decide) (by decide) (by decide) (by decide) (by decide) (by decide)

/-! ### Namespace accounting (`_update_namespace_stats`), claim C2

The aggregate's state is `none` before its first adjustment and
`some doc_count` afterwards.  The painless script sent by the code reads
`doc_count = Math.max(0, doc_count + delta)` and the upsert document carries
`doc_count = max(delta, 0)`. -/

/-- One conditional-upsert adjustment of a namespace aggregate: creation uses
the upsert document's `doc_count = max(delta, 0)`; an existing aggregate is
updated by the script `doc_count = Math.max(0, doc_count + delta)`. -/
def adjust_doc_count : Option ℤ → ℤ → ℤ
  | none, delta => max delta 0
  | some dc, delta => max 0 (dc + delta)

/-- `_update_namespace_stats` as a transition on the aggregate's state. -/
def update_namespace_stats (state : Option ℤ) (delta : ℤ) : Option ℤ :=
  some (adjust_doc_count state delta)

/-- Running a sequence of adjustments against an initially absent aggregate. -/
def run_adjustments (deltas : List ℤ) : Option ℤ :=
  deltas.foldl update_namespace_stats none

lemma run_adjustments_nonneg_aux (l : List ℤ) (s : Option ℤ)
    (hs : ∀ x, s = some x → 0 ≤ x) :
    ∀ dc, l.foldl update_namespace_stats s = some dc → 0 ≤ dc := by
  induction l generalizing s with
  | nil => exact fun dc h => hs dc h
  | cons d rest ih =>
    intro dc h
    refine ih (update_namespace_stats s d) ?_ dc h
    intro x hx
    simp only [update_namespace_stats, Option.some.injEq] at hx
    subst hx
    cases s with
    | none => exact le_max_right d 0
    | some v => exact le_max_left 0 _

/-- C2: after any sequence of `{+1, 0, -1}` adjustments, in any order and with
any duplication, the aggregate's `doc_count` is non-negative after every
adjustment (i.e. after every prefix of the sequence). -/
theorem doc_count_never_negative (deltas : List ℤ)
    (hd : ∀ d ∈ deltas, d = -1 ∨ d = 0 ∨ d = 1)
    (pre : List ℤ) (hpre : pre <+: deltas)
    (dc : ℤ) (hdc : run_adjustments pre = some dc) : 0 ≤ dc :=
  run_adjustments_nonneg_aux pre none (by intro x hx; cases hx) dc hdc

/-- Witness for C2 on the concrete adjustment sequence `[-1, -1, 1, 0, -1]`. -/
theorem doc_count_never_negative_witness :
    run_adjustments [-1, -1, 1, 0, -1] = some 0 ∧ (0 : ℤ) ≤ 0 :=
  ⟨by decide,
   doc_count_never_negative [-1, -1, 1, 0, -1] (by decide)
     [-1, -1, 1, 0, -1] List.prefix_rfl 0 (by decide)⟩

/-! ### Batched operations (`batch`), claim C3

`batch` is `return [self._execute_op(op) for op in ops]`: the operations run
sequentially and an exception raised by `_execute_op` propagates out of the
list comprehension, aborting the remaining operations.  An operation's
execution is modelled as an `Except`-valued function. -/

/-- `OpenSearchStore.batch`: a Python list comprehension over `_execute_op`.
A raised exception (`Except.error`) escapes the comprehension. -/
def batch {α β ε : Type} (exec : α → Except ε β) : List α → Except ε (List β)
  | [] => .ok []
  | op :: rest =>
    match exec op with
    | .error e => .error e
    | .ok r =>
      match batch exec rest with
      | .error e => .error e
      | .ok rs => .ok (r :: rs)

/-- Modelled from the spec: a batch with per-operation error isolation would
return one result slot per input operation, each holding that operation's own
outcome. -/
def batch_spec {α β ε : Type} (exec : α → Except ε β) (ops : List α) :
    List (Except ε β) :=
  ops.map exec

/-- A concrete operation executor whose operation `0` raises. -/
def exec0 : ℕ → Except String ℕ :=
  fun n => if n = 0 then .error "boom" else .ok n

/-- C3 counterexample: with two operations where the first raises, `batch`
returns a single propagated error — not one result slot per operation — while
the specified per-slot semantics would isolate the error to slot 0. -/
theorem batch_abort_counterexample :
    batch exec0 [0, 1] = .error "boom"
    ∧ batch_spec exec0 [0, 1] = [.error "boom", .ok 1] := by
  constructor
  · rfl
  · rfl

/-- C3 (amended): operations execute sequentially in input order; when every
operation succeeds the batch returns one result per operation in input order,
but an operation's exception propagates and aborts the batch — the remaining
operations contribute no result slots. -/
theorem batch_amended {α β : Type} (exec : α → Except String β) (ops : List α) :
    ((∀ op ∈ ops, ∃ r, exec op = .ok r) →
      ∃ rs, batch exec ops = .ok rs
        ∧ List.Forall₂ (fun op r => exec op = .ok r) ops rs)
    ∧ (∀ pre bad post e, ops = pre ++ bad :: post →
        (∀ op ∈ pre, ∃ r, exec op = .ok r) → exec bad = .error e →
        batch exec ops = .error e) := by
  constructor
  · intro h
    induction ops with
    | nil => exact ⟨[], rfl, List.Forall₂.nil⟩
    | cons op rest ih =>
      obtain ⟨r, hr⟩ := h op (by simp)
      obtain ⟨rs, hrs, hall⟩ := ih (fun o ho => h o (List.mem_cons_of_mem _ ho))
      refine ⟨r :: rs, ?_, List.Forall₂.cons hr hall⟩
      simp only [batch, hr, hrs]
  · intro pre bad post e hsplit hpre hbad
    subst hsplit
    induction pre with
    | nil => simp only [List.nil_append, batch, hbad]
    | cons p ps ih =>
      obtain ⟨r, hr⟩ := hpre p (by simp)
      have hx : batch exec (ps ++ bad :: post) = .error e :=
        ih (fun o ho => hpre o (List.mem_cons_of_mem _ ho))
      simp only [List.cons_append, batch, hr]
      rw [List.append_eq, hx]

/-- Witness for the amended C3 theorem: all-success and abort cases at
concrete inputs. -/
theorem batch_amended_witness :
    (∃ rs, batch exec0 [1, 2] = .ok rs
      ∧ List.Forall₂ (fun op r => exec0 op = .ok r) [1, 2] rs)
    ∧ batch exec0 [1, 0, 2] = .error "boom" :=
  ⟨(batch_amended exec0 [1, 2]).1
      (by intro op hop; fin_cases hop <;> exact ⟨_, rfl⟩),
   (batch_amended exec0 [1, 0, 2]).2 [1] 0 [2] "boom" rfl
      (by intro op hop; fin_cases hop; exact ⟨1, rfl⟩) rfl⟩

/-! ### TTL refresh, put and get handlers, claims C4 and C5

A stored document's `_source` is modelled by `Doc` (timestamps as integers);
each fallible engine call a handler performs is modelled by an `Except` value
injected into the handler, whose `error` branch models a raised exception.
A `try`/`except` block in the Python code becomes a `match` that maps the
error branch back to success; the absence of such a block leaves the error
to propagate. -/

/-- A stored document's `_source`, reduced to the fields the handlers read. -/
structure Doc where
  ttl_expires_at : Option ℤ
  ttl_minutes : Option ℚ
  payload : ℕ
deriving DecidableEq

/-- `_is_expired`: no `ttl_expires_at` means never expired; otherwise the
document is expired when the deadline is at or before now. -/
def is_expired (src : Doc) (now : ℤ) : Bool :=
  match src.ttl_expires_at with
  | none => false
  | some t => t ≤ now

/-- `_should_refresh_ttl`: a TTL-carrying document is refreshed when either
the caller's flag or the store-wide `ttl_refresh_on_read` setting is set. -/
def should_refresh_ttl (refresh_flag refresh_on_read : Bool) (src : Doc) : Bool :=
  match src.ttl_expires_at with
  | none => false
  | some _ => refresh_flag || refresh_on_read

/-- `_refresh_ttl`: resolves the TTL duration (document field, else store
default), then updates the document inside `try`/`except` — a failed update
is swallowed and the call returns normally. -/
def refresh_ttl (ttl_minutes ttl_minutes_default : Option ℚ)
    (update_res : Except String Unit) : Except String Unit :=
  match ttl_minutes.orElse (fun _ => ttl_minutes_default) with
  | none => .ok ()
  | some _ =>
    match update_res with
    | .ok _ => .ok ()
    | .error _ => .ok ()

/-- The engine calls a single `_handle_put` performs, each as its outcome. -/
structure PutEffects where
  exists_check : Except String Bool
  index_res : Except String Unit
  delete_res : Except String Unit
  stats_res : Except String Unit

/-- `_doc_exists`: wraps `client.exists` in `try`/`except`, returning `false`
when the call raises. -/
def doc_exists (r : Except String Bool) : Bool :=
  match r with
  | .ok b => b
  | .error _ => false

/-- `_handle_put`: a null value deletes the document (when it exists) and then
adjusts the namespace count; a non-null value indexes the document and then
adjusts the namespace count.  Neither the index/delete call nor the
`_update_namespace_stats` call is wrapped in `try`/`except`. -/
def handle_put {V : Type} (fx : PutEffects) (value : Option V) :
    Except String Unit :=
  let existed := doc_exists fx.exists_check
  match value with
  | none =>
    if existed then do
      fx.delete_res
      fx.stats_res
    else .ok ()
  | some _ => do
    fx.index_res
    fx.stats_res

/-- `_handle_get`: a raising `client.get` is caught and yields `None`; an
expired document is deleted (`ignore=[404]` suppresses only 404s) and the
namespace count adjusted — both calls unprotected — and `None` is returned;
otherwise the TTL is optionally refreshed (best-effort) and the item
returned. -/
def handle_get (get_res : Except String Doc)
    (delete_res stats_res refresh_update_res : Except String Unit)
    (refresh_flag refresh_on_read : Bool) (ttl_minutes_default : Option ℚ)
    (now : ℤ) : Except String (Option Doc) :=
  match get_res with
  | .error _ => .ok none
  | .ok src =>
    if is_expired src now then do
      delete_res
      stats_res
      pure none
    else do
      if should_refresh_ttl refresh_flag refresh_on_read src then
        refresh_ttl src.ttl_minutes ttl_minutes_default refresh_update_res
      else pure ()
      pure (some src)

/-- One search hit together with the outcomes of the engine calls
`_hits_to_items` may perform for it. -/
structure HitCtx where
  src : Doc
  delete_res : Except String Unit
  refresh_update_res : Except String Unit

/-- `_hits_to_items`: expired hits are deleted (unprotected call, 404s
ignored) and skipped; live hits are optionally TTL-refreshed (best-effort)
and collected in order. -/
def hits_to_items (hits : List HitCtx)
    (refresh_flag refresh_on_read : Bool) (ttl_minutes_default : Option ℚ)
    (now : ℤ) : Except String (List Doc) :=
  match hits with
  | [] => .ok []
  | h :: rest =>
    if is_expired h.src now then do
      h.delete_res
      hits_to_items rest refresh_flag refresh_on_read ttl_minutes_default now
    else do
      if should_refresh_ttl refresh_flag refresh_on_read h.src then
        refresh_ttl h.src.ttl_minutes ttl_minutes_default h.refresh_update_res
      else pure ()
      let items ← hits_to_items rest refresh_flag refresh_on_read
        ttl_minutes_default now
      pure (h.src :: items)

/-- A TTL refresh never fails: every failure of the underlying update is
swallowed inside `_refresh_ttl`. -/
lemma refresh_ttl_ok (m d : Option ℚ) (u : Except String Unit) :
    refresh_ttl m d u = .ok () := by
  unfold refresh_ttl
  cases m.orElse fun _ => d with
  | none => rfl
  | some v => cases u <;> rfl

/-- C4 counterexample: a Put whose document indexing succeeds but whose
namespace-count adjustment fails propagates that failure — the adjustment is
not best-effort. -/
theorem stats_failure_propagates_counterexample :
    handle_put (V := Unit)
      { exists_check := .ok false, index_res := .ok (),
        delete_res := .ok (), stats_res := .error "stats_down" }
      (some ()) = .error "stats_down" := rfl

/-- C4 (amended): a failure of a TTL refresh is swallowed and never
propagated, but a failure of the namespace-count adjustment is not caught:
it propagates out of the triggering Put (both the index and the delete
branch) and out of a Get that evicts an expired document. -/
theorem best_effort_amended (fx : PutEffects) (e : String) :
    (∀ m d u, refresh_ttl m d u = .ok ())
    ∧ (fx.index_res = .ok () → fx.stats_res = .error e →
        ∀ V : Type, ∀ v : V, handle_put fx (some v) = .error e)
    ∧ (doc_exists fx.exists_check = true → fx.delete_res = .ok () →
        fx.stats_res = .error e → handle_put (V := Unit) fx none = .error e)
    ∧ (∀ src : Doc, ∀ ru : Except String Unit, ∀ rf rr : Bool,
        ∀ dflt : Option ℚ, ∀ now : ℤ, is_expired src now = true →
        handle_get (.ok src) (.ok ()) (.error e) ru rf rr dflt now = .error e) := by
  refine ⟨refresh_ttl_ok, ?_, ?_, ?_⟩
  · intro hidx hstats V v
    simp only [handle_put, hidx, hstats]
    rfl
  · intro hex hdel hstats
    simp only [handle_put, hex, hdel, hstats, if_true]
    rfl
  · intro src ru rf rr dflt now hexp
    simp only [handle_get, hexp, if_true]
    rfl

/-- Witness for the amended C4 theorem at concrete effects. -/
theorem best_effort_amended_witness :
    refresh_ttl (some 5) none (.error "late") = .ok ()
    ∧ handle_put (V := ℕ)
        { exists_check := .ok false, index_res := .ok (),
          delete_res := .ok (), stats_res := .error "down" }
        (some 7) = .error "down"
    ∧ handle_get (.ok { ttl_expires_at := some 3, ttl_minutes := none, payload := 0 })
        (.ok ()) (.error "down") (.ok ()) false false none 5 = .error "down" :=
  ⟨(best_effort_amended
      { exists_check := .ok false, index_res := .ok (),
        delete_res := .ok (), stats_res := .error "down" } "down").1
      (some 5) none (.error "late"),
   (best_effort_amended
      { exists_check := .ok false, index_res := .ok (),
        delete_res := .ok (), stats_res := .error "down" } "down").2.1
      rfl rfl ℕ 7,
   (best_effort_amended
      { exists_check := .ok false, index_res := .ok (),
        delete_res := .ok (), stats_res := .error "down" } "down").2.2.2
      { ttl_expires_at := some 3, ttl_minutes := none, payload := 0 }
      (.ok ()) false false none 5 rfl⟩

/-- C5 counterexample: a Get that finds an expired document whose best-effort
deletion raises (a non-404 failure; `ignore=[404]` suppresses only 404s)
propagates the failure instead of returning "no record". -/
theorem expired_delete_failure_counterexample :
    handle_get (.ok { ttl_expires_at := some 3, ttl_minutes := none, payload := 0 })
      (.error "transport") (.ok ()) (.ok ()) false false none 5
      = .error "transport" := rfl

/-- C5 (amended): a Get on a missing document returns "no record" rather than
an error; an expired Get or Search hit is deleted and excluded from the
result, and when the deletions succeed a search returns exactly the live
hits in order; but a non-404 failure of the expired-document deletion
propagates and fails the read instead of being swallowed. -/
theorem get_expiry_amended (rf rr : Bool) (dflt : Option ℚ) (now : ℤ) :
    (∀ s : String, ∀ dr sr ru : Except String Unit,
      handle_get (.error s) dr sr ru rf rr dflt now = .ok none)
    ∧ (∀ src : Doc, is_expired src now = true →
        handle_get (.ok src) (.ok ()) (.ok ()) (.ok ()) rf rr dflt now = .ok none)
    ∧ (∀ hits : List HitCtx, (∀ h ∈ hits, h.delete_res = .ok ()) →
        hits_to_items hits rf rr dflt now
          = .ok ((hits.filter (fun h => !is_expired h.src now)).map (·.src)))
    ∧ (∀ src : Doc, ∀ e : String, is_expired src now = true →
        handle_get (.ok src) (.error e) (.ok ()) (.ok ()) rf rr dflt now
          = .error e) := by
  refine ⟨?_, ?_, ?_, ?_⟩
  · intro s dr sr ru
    rfl
  · intro src hexp
    simp only [handle_get, hexp, if_true]
    rfl
  · intro hits hdel
    induction hits with
    | nil => rfl
    | cons h rest ih =>
      have hh : h.delete_res = .ok () := hdel h (by simp)
      have hrest := ih (fun x hx => hdel x (List.mem_cons_of_mem _ hx))
      by_cases hexp : is_expired h.src now = true
      · simp only [hits_to_items, hexp, hh, hrest, if_true, List.filter_cons,
          Bool.not_true, if_false, cond_false]
        rfl
      · simp only [Bool.not_eq_true] at hexp
        by_cases hr : should_refresh_ttl rf rr h.src = true
        · simp only [hits_to_items, hexp, hr, refresh_ttl_ok, hrest, if_true,
            if_false, List.filter_cons, Bool.not_false, cond_true]
          rfl
        · simp only [Bool.not_eq_true] at hr
          simp [hits_to_items, hexp, hr, hrest, List.filter_cons]
  · intro src e hexp
    simp only [handle_get, hexp, if_true]
    rfl

/-- Witness for the amended C5 theorem: concrete missing, expired-and-deleted,
search-filtering and failing-deletion cases. -/
theorem get_expiry_amended_witness :
    handle_get (.error "missing") (.ok ()) (.ok ()) (.ok ()) false false none 5
      = .ok none
    ∧ handle_get (.ok { ttl_expires_at := some 3, ttl_minutes := none, payload := 1 })
        (.ok ()) (.ok ()) (.ok ()) false false none 5 = .ok none
    ∧ hits_to_items
        [{ src := { ttl_expires_at := some 3, ttl_minutes := none, payload := 1 },
           delete_res := .ok (), refresh_update_res := .ok () },
         { src := { ttl_expires_at := none, ttl_minutes := none, payload := 2 },
           delete_res := .ok (), refresh_update_res := .ok () }]
        false false none 5
        = .ok [{ ttl_expires_at := none, ttl_minutes := none, payload := 2 }]
    ∧ handle_get (.ok { ttl_expires_at := some 3, ttl_minutes := none, payload := 1 })
        (.error "transport") (.ok ()) (.ok ()) false false none 5
        = .error "transport" := by
  obtain ⟨h1, h2, h3, h4⟩ := get_expiry_amended false false none 5
  refine ⟨h1 "missing" (.ok ()) (.ok ()) (.ok ()), h2 _ rfl, ?_, h4 _ "transport" rfl⟩
  have := h3
    [{ src := { ttl_expires_at := some 3, ttl_minutes := none, payload := 1 },
       delete_res := .ok (), refresh_update_res := .ok () },
     { src := { ttl_expires_at := none, ttl_minutes := none, payload := 2 },
       delete_res := .ok (), refresh_update_res := .ok () }]
    (by intro h hh; fin_cases hh <;> rfl)
  simpa using this

/-! ### Vector search (`_vector_search` / `_calculate_ef_search`), claims C7 and C10

Filters and engine hits are opaque type parameters; the lexical search and
the engine's ANN endpoint are injected as functions.  The query embedding
itself plays no role in the claims and is elided from the knn payload. -/

/-- The store settings consulted by `_vector_search`. -/
structure SearchSettings where
  search_num_candidates : ℤ
  search_similarity_threshold : Option ℚ

/-- The knn payload assembled by `_vector_search` before
`_format_knn_clause` rewrites it. -/
structure KnnPayload where
  k : ℕ
  num_candidates : ℤ
  similarity_cutoff : Option ℚ

/-- `_calculate_ef_search`: a non-positive candidate count yields no
`ef_search`; otherwise the result is the candidate count, raised to at least
`max(k, 1)` when `k` is present. -/
def calculate_ef_search (k_value : Option ℤ) (num_candidates : ℤ) : Option ℤ :=
  if num_candidates ≤ 0 then none
  else
    match k_value with
    | none => some num_candidates
    | some kv => some (max num_candidates (max kv 1))

/-- The knn clause `_apply_knn_query` sends to the engine: `num_candidates`
has been popped and converted into `method_parameters.ef_search`, and
`_merge_knn_filters` has attached the boolean filters. -/
structure KnnClause (φ : Type) where
  k : ℕ
  ef_search : Option ℤ
  similarity_cutoff : Option ℚ
  filters : List φ

/-- `_apply_knn_query` composed with `_format_knn_clause` and
`_merge_knn_filters` on a freshly built payload. -/
def apply_knn_query {φ : Type} (p : KnnPayload) (filters : List φ) :
    KnnClause φ :=
  { k := p.k,
    ef_search := calculate_ef_search (some (p.k : ℤ)) p.num_candidates,
    similarity_cutoff := p.similarity_cutoff,
    filters := filters }

/-- `_vector_search`: with no embeddings provider or a falsy query it falls
back to `_text_search` with identical arguments; otherwise it requests
`k = limit + offset` candidates with
`num_candidates = max(size * 2, settings.search_num_candidates)`, the
optional similarity cutoff, and slices `[offset : offset + limit]` from the
engine's single ranked response. -/
def vector_search {φ η : Type} (embeddings : Option Unit) (query : Option Str)
    (s : SearchSettings) (filters : List φ)
    (text_search : Option Str → List φ → ℕ → ℕ → List η)
    (knn_run : KnnClause φ → ℕ → List η)
    (limit offset : ℕ) : List η :=
  if embeddings = none ∨ query = none ∨ query = some [] then
    text_search query filters limit offset
  else
    let size := limit + offset
    let payload : KnnPayload :=
      { k := size,
        num_candidates := max ((size : ℤ) * 2) s.search_num_candidates,
        similarity_cutoff := s.search_similarity_threshold }
    let hits := knn_run (apply_knn_query payload filters) size
    (hits.drop offset).take limit

/-- C7: with an embeddings provider and a non-empty query, the engine query
requests `k = limit + offset` with
`num_candidates = max(2 * (limit + offset), configured floor)`, converts it
into `ef_search` bounded below by `k`, forwards the optional similarity
cutoff, and returns the client-side slice `[offset, offset + limit)` of the
engine's ranked response. -/
theorem vector_search_plan_correct {φ η : Type}
    (s : SearchSettings) (filters : List φ)
    (text_search : Option Str → List φ → ℕ → ℕ → List η)
    (knn_run : KnnClause φ → ℕ → List η)
    (limit offset : ℕ) (q : Str) (hq : q ≠ [])
    (hpos : 0 < limit + offset ∨ 0 < s.search_num_candidates) :
    (apply_knn_query
        { k := limit + offset,
          num_candidates := max (((limit + offset : ℕ) : ℤ) * 2) s.search_num_candidates,
          similarity_cutoff := s.search_similarity_threshold } filters).k
      = limit + offset
    ∧ max (((limit + offset : ℕ) : ℤ) * 2) s.search_num_candidates
      = max (2 * ((limit + offset : ℕ) : ℤ)) s.search_num_candidates
    ∧ (∃ e : ℤ,
        (apply_knn_query
          { k := limit + offset,
            num_candidates := max (((limit + offset : ℕ) : ℤ) * 2) s.search_num_candidates,
            similarity_cutoff := s.search_similarity_threshold } filters).ef_search
          = some e
        ∧ ((limit + offset : ℕ) : ℤ) ≤ e
        ∧ e = max (max (((limit + offset : ℕ) : ℤ) * 2) s.search_num_candidates)
            (max ((limit + offset : ℕ) : ℤ) 1))
    ∧ (apply_knn_query
        { k := limit + offset,
          num_candidates := max (((limit + offset : ℕ) : ℤ) * 2) s.search_num_candidates,
          similarity_cutoff := s.search_similarity_threshold } filters).similarity_cutoff
      = s.search_similarity_threshold
    ∧ vector_search (some ()) (some q) s filters text_search knn_run limit offset
      = ((knn_run
            (apply_knn_query
              { k := limit + offset,
                num_candidates := max (((limit + offset : ℕ) : ℤ) * 2) s.search_num_candidates,
                similarity_cutoff := s.search_similarity_threshold } filters)
            (limit + offset)).drop offset).take limit := by
  have hnc : ¬ (max (((limit + offset : ℕ) : ℤ) * 2) s.search_num_candidates ≤ 0) := by
    rcases hpos with hp | hp
    · have : (0 : ℤ) < ((limit + offset : ℕ) : ℤ) * 2 := by positivity
      exact fun hle => absurd (lt_of_lt_of_le this (le_trans (le_max_left _ _) hle))
        (lt_irrefl 0)
    · exact fun hle => absurd (lt_of_lt_of_le hp (le_trans (le_max_right _ _) hle))
        (lt_irrefl 0)
  refine ⟨rfl, by rw [mul_comm], ?_, rfl, ?_⟩
  · refine ⟨_, ?_, ?_, rfl⟩
    · simp only [apply_knn_query, calculate_ef_search, if_neg hnc]
    · exact le_trans (le_max_left _ 1) (le_max_right _ _)
  · have hcond : ¬ ((some () : Option Unit) = none ∨ (some q : Option Str) = none
        ∨ (some q : Option Str) = some []) := by
      simp [hq]
    simp only [vector_search, if_neg hcond]

/-- Witness for C7 at a concrete plan: limit 2, offset 1, floor 200,
engine response `[10, 20, 30]`. -/
theorem vector_search_plan_witness :
    vector_search (φ := ℕ) (η := ℕ) (some ()) (some ['h'])
      { search_num_candidates := 200, search_similarity_threshold := none }
      [] (fun _ _ _ _ => [0]) (fun _ _ => [10, 20, 30]) 2 1 = [20, 30] := by
  have h := (vector_search_plan_correct (φ := ℕ) (η := ℕ)
    { search_num_candidates := 200, search_similarity_threshold := none }
    [] (fun _ _ _ _ => [0]) (fun _ _ => [10, 20, 30]) 2 1 ['h']
    (by decide) (Or.inl (by decide))).2.2.2.2
  simpa using h

/-- C10: whenever `_vector_search` runs with no embeddings provider, or with
a `None` or empty query, it silently returns exactly the lexical
`_text_search` result with the same query, filters, limit and offset. -/
theorem vector_fallback_to_text {φ η : Type} (embeddings : Option Unit)
    (query : Option Str) (s : SearchSettings) (filters : List φ)
    (text_search : Option Str → List φ → ℕ → ℕ → List η)
    (knn_run : KnnClause φ → ℕ → List η) (limit offset : ℕ)
    (h : embeddings = none ∨ query = none ∨ query = some []) :
    vector_search embeddings query s filters text_search knn_run limit offset
      = text_search query filters limit offset := by
  simp only [vector_search, if_pos h]

/-- Witness for C10: empty query with an embeddings provider present falls
back to the lexical result. -/
theorem vector_fallback_witness :
    vector_search (φ := ℕ) (η := ℕ) (some ()) (some [])
      { search_num_candidates := 200, search_similarity_threshold := none }
      [5] (fun _ _ l o => [l, o]) (fun _ _ => [99]) 7 3 = [7, 3] :=
  vector_fallback_to_text (some ()) (some [])
    { search_num_candidates := 200, search_similarity_threshold := none }
    [5] (fun _ _ l o => [l, o]) (fun _ _ => [99]) 7 3 (Or.inr (Or.inr rfl))

/-! ### Document encoding (`_document_body` / `_extract_text`), claim C9

A record's `value` is a Python dict, modelled as an association list of
loosely-typed JSON values; `value.get` returns the first binding. -/

/-- A loosely-typed JSON value stored in a record's payload. -/
inductive JVal where
  | str : Str → JVal
  | num : ℤ → JVal
  | boolean : Bool → JVal
  | null : JVal
deriving DecidableEq

/-- Python `value.get(key)` on a dict modelled as an association list. -/
def dict_get (m : List (Str × JVal)) (k : Str) : Option JVal :=
  match m with
  | [] => none
  | (k', v) :: rest => if k' = k then some v else dict_get rest k

/-- Whether an optional JSON value is a string (Python `isinstance(x, str)`
on the result of `value.get`). -/
def is_str_val : Option JVal → Bool
  | some (.str _) => true
  | _ => false

/-- The `"text"` candidate field name. -/
def text_key : Str := ['t', 'e', 'x', 't']

/-- The `"body"` candidate field name. -/
def body_key : Str := ['b', 'o', 'd', 'y']

/-- The `"content"` candidate field name. -/
def content_key : Str := ['c', 'o', 'n', 't', 'e', 'n', 't']

/-- The fixed priority list `("text", "body", "content")`. -/
def text_field_candidates : List Str :=
  [text_key, body_key, content_key]

/-- Helper for `_extract_text`: scan candidates in order, returning the first
present string-valued field, skipping missing or non-string fields. -/
def extract_text_from (value : List (Str × JVal)) : List Str → Option Str
  | [] => none
  | c :: rest =>
    match dict_get value c with
    | some (.str s) => some s
    | _ => extract_text_from value rest

/-- `_extract_text`. -/
def extract_text (value : List (Str × JVal)) : Option Str :=
  extract_text_from value text_field_candidates

/-- The document sent to the engine by `_handle_put` (`_document_body`). -/
structure DocBody where
  doc : List (Str × JVal)
  created_at : ℚ
  updated_at : ℚ
  ttl_minutes : Option ℚ
  ttl_expires_at : Option ℚ
  embedding : Option (List ℚ)

/-- `_document_body`: timestamps are set to now; the TTL deadline is
`now + ttl_minutes` when a TTL is supplied; with an embeddings provider the
extracted text (when truthy) is embedded inside `try`/`except` — a raising
provider is logged and the vector omitted, and a falsy (empty) vector is
likewise omitted. -/
def document_body (has_embeddings : Bool)
    (embed_query : Str → Except String (List ℚ))
    (value : List (Str × JVal)) (ttl_minutes : Option ℚ) (now : ℚ) : DocBody :=
  let embedding :=
    if has_embeddings then
      match extract_text value with
      | none => none
      | some t =>
        if t = [] then none
        else
          match embed_query t with
          | .error _ => none
          | .ok v => if v = [] then none else some v
    else none
  { doc := value,
    created_at := now,
    updated_at := now,
    ttl_minutes := ttl_minutes,
    ttl_expires_at := ttl_minutes.map (fun m => now + m),
    embedding := embedding }

/-- C9: the text to embed is the first present string-valued field among
`("text", "body", "content")` in that order; a raising embedding provider is
caught, the document is stored without a vector, and the Put still succeeds
(the index and stats calls run exactly as they would otherwise). -/
theorem embedding_extraction_and_degradation
    (value : List (Str × JVal)) (ttl : Option ℚ) (now : ℚ)
    (embed_query : Str → Except String (List ℚ))
    (hfail : ∀ t, ∃ e, embed_query t = .error e) :
    (∀ s, dict_get value text_key = some (.str s) → extract_text value = some s)
    ∧ (∀ s, is_str_val (dict_get value text_key) = false →
        dict_get value body_key = some (.str s) → extract_text value = some s)
    ∧ (∀ s, is_str_val (dict_get value text_key) = false →
        is_str_val (dict_get value body_key) = false →
        dict_get value content_key = some (.str s) → extract_text value = some s)
    ∧ (is_str_val (dict_get value text_key) = false →
        is_str_val (dict_get value body_key) = false →
        is_str_val (dict_get value content_key) = false →
        extract_text value = none)
    ∧ document_body true embed_query value ttl now
        = { doc := value, created_at := now, updated_at := now,
            ttl_minutes := ttl, ttl_expires_at := ttl.map (fun m => now + m),
            embedding := none }
    ∧ (∀ fx : PutEffects, fx.index_res = .ok () → fx.stats_res = .ok () →
        handle_put fx (some (document_body true embed_query value ttl now))
          = .ok ()) := by
  refine ⟨?_, ?_, ?_, ?_, ?_, ?_⟩
  · intro s hs
    simp only [extract_text, text_field_candidates, extract_text_from]
    rw [hs]
  · intro s ht hs
    simp only [extract_text, text_field_candidates, extract_text_from]
    cases hv : dict_get value text_key with
    | none => rw [hs]
    | some v =>
      cases v with
      | str s' => rw [hv] at ht; simp [is_str_val] at ht
      | num n => rw [hs]
      | boolean b => rw [hs]
      | null => rw [hs]
  · intro s ht hb hs
    simp only [extract_text, text_field_candidates, extract_text_from]
    cases hv : dict_get value text_key with
    | some v =>
      cases v with
      | str s' => rw [hv] at ht; simp [is_str_val] at ht
      | num n =>
        cases hw : dict_get value body_key with
        | none => rw [hs]
        | some w =>
          cases w with
          | str s'' => rw [hw] at hb; simp [is_str_val] at hb
          | num m => rw [hs]
          | boolean b2 => rw [hs]
          | null => rw [hs]
      | boolean b1 =>
        cases hw : dict_get value body_key with
        | none => rw [hs]
        | some w =>
          cases w with
          | str s'' => rw [hw] at hb; simp [is_str_val] at hb
          | num m => rw [hs]
          | boolean b2 => rw [hs]
          | null => rw [hs]
      | null =>
        cases hw : dict_get value body_key with
        | none => rw [hs]
        | some w =>
          cases w with
          | str s'' => rw [hw] at hb; simp [is_str_val] at hb
          | num m => rw [hs]
          | boolean b2 => rw [hs]
          | null => rw [hs]
    | none =>
      cases hw : dict_get value body_key with
      | none => rw [hs]
      | some w =>
        cases w with
        | str s'' => rw [hw] at hb; simp [is_str_val] at hb
        | num m => rw [hs]
        | boolean b2 => rw [hs]
        | null => rw [hs]
  · intro ht hb hc
    simp only [extract_text, text_field_candidates, extract_text_from]
    cases hv : dict_get value text_key with
    | some v =>
      cases v with
      | str s' => rw [hv] at ht; simp [is_str_val] at ht
      | num n =>
        cases hw : dict_get value body_key with
        | some w =>
          cases w with
          | str s'' => rw [hw] at hb; simp [is_str_val] at hb
          | num m =>
            cases hx : dict_get value content_key with
            | some x =>
              cases x with
              | str s3 => rw [hx] at hc; simp [is_str_val] at hc
              | num p => rfl
              | boolean b3 => rfl
              | null => rfl
            | none => rfl
          | boolean b2 =>
            cases hx : dict_get value content_key with
            | some x =>
              cases x with
              | str s3 => rw [hx] at hc; simp [is_str_val] at hc
              | num p => rfl
              | boolean b3 => rfl
              | null => rfl
            | none => rfl
          | null =>
            cases hx : dict_get value content_key with
            | some x =>
              cases x with
              | str s3 => rw [hx] at hc; simp [is_str_val] at hc
              | num p => rfl
              | boolean b3 => rfl
              | null => rfl
            | none => rfl
        | none =>
          cases hx : dict_get value content_key with
          | some x =>
            cases x with
            | str s3 => rw [hx] at hc; simp [is_str_val] at hc
            | num p => rfl
            | boolean b3 => rfl
            | null => rfl
          | none => rfl
      | boolean b1 =>
        cases hw : dict_get value body_key with
        | some w =>
          cases w with
          | str s'' => rw [hw] at hb; simp [is_str_val] at hb
          | num m =>
            cases hx : dict_get value content_key with
            | some x =>
              cases x with
              | str s3 => rw [hx] at hc; simp [is_str_val] at hc
              | num p => rfl
              | boolean b3 => rfl
              | null => rfl
            | none => rfl
          | boolean b2 =>
            cases hx : dict_get value content_key with
            | some x =>
              cases x with
              | str s3 => rw [hx] at hc; simp [is_str_val] at hc
              | num p => rfl
              | boolean b3 => rfl
              | null => rfl
            | none => rfl
          | null =>
            cases hx : dict_get value content_key with
            | some x =>
              cases x with
              | str s3 => rw [hx] at hc; simp [is_str_val] at hc
              | num p => rfl
              | boolean b3 => rfl
              | null => rfl
            | none => rfl
        | none =>
          cases hx : dict_get value content_key with
          | some x =>
            cases x with
            | str s3 => rw [hx] at hc; simp [is_str_val] at hc
            | num p => rfl
            | boolean b3 => rfl
            | null => rfl
          | none => rfl
      | null =>
        cases hw : dict_get value body_key with
        | some w =>
          cases w with
          | str s'' => rw [hw] at hb; simp [is_str_val] at hb
          | num m =>
            cases hx : dict_get value content_key with
            | some x =>
              cases x with
              | str s3 => rw [hx] at hc; simp [is_str_val] at hc
              | num p => rfl
              | boolean b3 => rfl
              | null => rfl
            | none => rfl
          | boolean b2 =>
            cases hx : dict_get value content_key with
            | some x =>
              cases x with
              | str s3 => rw [hx] at hc; simp [is_str_val] at hc
              | num p => rfl
              | boolean b3 => rfl
              | null => rfl
            | none => rfl
          | null =>
            cases hx : dict_get value content_key with
            | some x =>
              cases x with
              | str s3 => rw [hx] at hc; simp [is_str_val] at hc
              | num p => rfl
              | boolean b3 => rfl
              | null => rfl
            | none => rfl
        | none =>
          cases hx : dict_get value content_key with
          | some x =>
            cases x with
            | str s3 => rw [hx] at hc; simp [is_str_val] at hc
            | num p => rfl
            | boolean b3 => rfl
            | null => rfl
          | none => rfl
    | none =>
      cases hw : dict_get value body_key with
      | some w =>
        cases w with
        | str s'' => rw [hw] at hb; simp [is_str_val] at hb
        | num m =>
          cases hx : dict_get value content_key with
          | some x =>
            cases x with
            | str s3 => rw [hx] at hc; simp [is_str_val] at hc
            | num p => rfl
            | boolean b3 => rfl
            | null => rfl
          | none => rfl
        | boolean b2 =>
          cases hx : dict_get value content_key with
          | some x =>
            cases x with
            | str s3 => rw [hx] at hc; simp [is_str_val] at hc
            | num p => rfl
            | boolean b3 => rfl
            | null => rfl
          | none => rfl
        | null =>
          cases hx : dict_get value content_key with
          | some x =>
            cases x with
            | str s3 => rw [hx] at hc; simp [is_str_val] at hc
            | num p => rfl
            | boolean b3 => rfl
            | null => rfl
          | none => rfl
      | none =>
        cases hx : dict_get value content_key with
        | some x =>
          cases x with
          | str s3 => rw [hx] at hc; simp [is_str_val] at hc
          | num p => rfl
          | boolean b3 => rfl
          | null => rfl
        | none => rfl
  · simp only [document_body, if_true]
    cases hx : extract_text value with
    | none => rfl
    | some t =>
      by_cases ht : t = []
      · simp [ht]
      · obtain ⟨e, he⟩ := hfail t
        simp [ht, he]
  · intro fx hidx hstats
    simp only [handle_put, hidx, hstats]
    rfl

/-- Witness for C9 on a concrete value whose `"text"` field is a number and
whose `"body"` field is a string, with an always-raising provider. -/
theorem embedding_extraction_witness :
    extract_text [(text_key, .num 3), (body_key, .str ['h', 'i'])]
      = some ['h', 'i']
    ∧ document_body true (fun _ => .error "provider_down")
        [(text_key, .num 3), (body_key, .str ['h', 'i'])] none 0
      = { doc := [(text_key, .num 3), (body_key, .str ['h', 'i'])],
          created_at := 0, updated_at := 0, ttl_minutes := none,
          ttl_expires_at := none, embedding := none } := by
  have h := embedding_extraction_and_degradation
    [(text_key, .num 3), (body_key, .str ['h', 'i'])] none 0
    (fun _ => .error "provider_down") (fun t => ⟨"provider_down", rfl⟩)
  exact ⟨h.2.1 ['h', 'i'] (by decide) (by decide), by simpa using h.2.2.2.2.1⟩

/-! ### Hybrid search (`_hybrid_search`), claim C1

Hits are identified by their resolved document id (`hit["_id"]` or the
source key); a falsy id is the empty string and such hits are skipped while
still consuming a rank.  The `scores` dict is an insertion-ordered
association list; the `hits` dict maps an id to the hit object, which in
this model is the id itself. -/

/-- One `scores[doc_id] = scores.get(doc_id, 0.0) + inc` dict update: an
existing key keeps its position, a new key is appended. -/
def bump (acc : List (Str × ℚ)) (id : Str) (w : ℚ) : List (Str × ℚ) :=
  match acc with
  | [] => [(id, w)]
  | (k, v) :: rest => if k = id then (k, v + w) :: rest else (k, v) :: bump rest id w

/-- The inner `rank_items` loop of `_hybrid_search`: hits are enumerated from
`rank`; a hit with a falsy id is skipped (but still consumes its rank); every
other hit contributes `weight / (rank + 1)` to its id's running score. -/
def rank_items (weight : ℚ) : List Str → ℕ → List (Str × ℚ) → List (Str × ℚ)
  | [], _, acc => acc
  | hit :: rest, rank, acc =>
    rank_items weight rest (rank + 1)
      (if hit = [] then acc else bump acc hit (weight / ((rank : ℚ) + 1)))

/-- The accumulated score table of `_hybrid_search`: text hits first, then
vector hits, both with weight 1.0 and 1-indexed ranks. -/
def fuse_scores (text_hits vector_hits : List Str) : List (Str × ℚ) :=
  rank_items 1 vector_hits 1 (rank_items 1 text_hits 1 [])

/-- Stable insertion step for a descending sort: the inserted element goes in
front of the first element whose score is not larger, so earlier elements of
the original list stay in front of equal-scored later ones. -/
def insort_desc (x : Str × ℚ) : List (Str × ℚ) → List (Str × ℚ)
  | [] => [x]
  | y :: ys => if y.2 ≤ x.2 then x :: y :: ys else y :: insort_desc x ys

/-- Python `sorted(scores, key=lambda d: scores[d], reverse=True)`: a stable
sort by descending score. -/
def sort_desc (l : List (Str × ℚ)) : List (Str × ℚ) :=
  l.foldr insort_desc []

/-- The fusion step of `_hybrid_search`: rank-score both lists, sort the score
table by descending score (stable), slice `[offset : offset + limit]` and
return the hit objects (here: the ids). -/
def hybrid_fuse (text_hits vector_hits : List Str) (limit offset : ℕ) : List Str :=
  ((((sort_desc (fuse_scores text_hits vector_hits)).map Prod.fst).drop offset).take limit)

/-- `_hybrid_search`: both sub-searches fetch `limit + offset` candidates with
internal offset `0`; the fused table is then sliced once. -/
def hybrid_search (text_search vector_search_fn : ℕ → ℕ → List Str)
    (limit offset : ℕ) : List Str :=
  hybrid_fuse (text_search (limit + offset) 0) (vector_search_fn (limit + offset) 0)
    limit offset

/-- Modelled from the spec: the reciprocal-rank contribution of one result
list — each hit at 1-indexed rank `r` contributes `weight / (r + 1)` to its
document id. -/
def rrf_contrib (weight : ℚ) : List Str → ℕ → Str → ℚ
  | [], _, _ => 0
  | hit :: rest, rank, id =>
    (if hit = id then weight / ((rank : ℚ) + 1) else 0)
      + rrf_contrib weight rest (rank + 1) id

/-- Modelled from the spec: a document's fused score is the sum of its
reciprocal-rank contributions from the lexical and the vector list, each with
weight 1.0. -/
def rrf_score (text_hits vector_hits : List Str) (id : Str) : ℚ :=
  rrf_contrib 1 text_hits 1 id + rrf_contrib 1 vector_hits 1 id

/-- First-occurrence de-duplication (Python `dict` key order). -/
def dedup_first {α : Type} [DecidableEq α] : List α → List α
  | [] => []
  | x :: xs => x :: (dedup_first xs).filter (fun y => decide (y ≠ x))

/-- Modelled from the spec: fused ranking = document ids in first-retrieval
order paired with their reciprocal-rank scores, stably sorted by descending
score, then sliced `[offset, offset + limit)`. -/
def fuse_spec (text_hits vector_hits : List Str) (limit offset : ℕ) : List Str :=
  ((((sort_desc ((dedup_first ((text_hits ++ vector_hits).filter
        (fun x => decide (x ≠ [])))).map
        (fun id => (id, rrf_score text_hits vector_hits id)))).map
      Prod.fst).drop offset).take limit)

lemma mem_dedup_first {α : Type} [DecidableEq α] (a : α) (l : List α) : a ∈ dedup_first l ↔ a ∈ l := by
  induction l with
  | nil => simp [dedup_first]
  | cons x xs ih =>
    simp only [dedup_first, List.mem_cons, List.mem_filter]
    constructor
    · rintro (rfl | ⟨hm, _⟩)
      · exact Or.inl rfl
      · exact Or.inr (ih.mp hm)
    · rintro (rfl | hm)
      · exact Or.inl rfl
      · by_cases hax : a = x
        · exact Or.inl hax
        · exact Or.inr ⟨ih.mpr hm, by simpa using hax⟩

lemma nodup_dedup_first {α : Type} [DecidableEq α] (l : List α) : (dedup_first l).Nodup := by
  induction l with
  | nil => simp [dedup_first]
  | cons x xs ih =>
    simp only [dedup_first, List.nodup_cons]
    refine ⟨?_, ih.filter _⟩
    intro hmem
    have := (List.mem_filter.mp hmem).2
    simp at this

lemma dedup_first_filter {α : Type} [DecidableEq α] (q : α → Bool) (l : List α) :
    dedup_first (l.filter q) = (dedup_first l).filter q := by
  induction l with
  | nil => simp [dedup_first]
  | cons x xs ih =>
    by_cases hq : q x
    · simp only [List.filter_cons, hq, if_true, dedup_first, ih]
      rw [List.filter_comm]
    · have hq' : q x = false := by
        cases hqx : q x
        · rfl
        · exact absurd hqx hq
      simp only [List.filter_cons, hq', Bool.false_eq_true, if_false, dedup_first,
        ih, List.filter_filter]
      refine List.filter_congr ?_
      intro a ha
      by_cases hax : a = x
      · subst hax
        simp [hq']
      · simp [hax]

lemma dedup_first_append {α : Type} [DecidableEq α] (A B : List α) :
    dedup_first (A ++ B)
      = dedup_first A ++ (dedup_first B).filter (fun b => decide (b ∉ A)) := by
  induction A with
  | nil =>
    simp only [List.nil_append, dedup_first]
    refine Eq.symm ?_
    refine (List.filter_congr ?_).trans (List.filter_true _)
    intro a ha
    simp
  | cons a A ih =>
    show a :: (dedup_first (A ++ B)).filter (fun y => decide (y ≠ a))
        = (a :: (dedup_first A).filter (fun y => decide (y ≠ a)))
          ++ (dedup_first B).filter (fun b => decide (b ∉ a :: A))
    rw [ih, List.filter_append, List.filter_filter, List.cons_append]
    congr 2
    refine List.filter_congr ?_
    intro b hb
    by_cases hba : b = a
    · subst hba
      simp
    · by_cases hbA : b ∈ A <;> simp [hba, hbA]

lemma rrf_contrib_of_not_mem (w : ℚ) (l : List Str) (r : ℕ) (id : Str)
    (h : id ∉ l) : rrf_contrib w l r id = 0 := by
  induction l generalizing r with
  | nil => rfl
  | cons x rest ih =>
    have hx : x ≠ id := fun he => h (by simp [he])
    simp only [rrf_contrib, if_neg hx]
    rw [ih (r + 1) (fun hm => h (List.mem_cons_of_mem _ hm))]
    simp

lemma bump_present (acc : List (Str × ℚ)) (x : Str) (w : ℚ)
    (hnd : (acc.map Prod.fst).Nodup) (hx : x ∈ acc.map Prod.fst) :
    bump acc x w = acc.map (fun p => if p.1 = x then (p.1, p.2 + w) else p) := by
  induction acc with
  | nil => simp at hx
  | cons p rest ih =>
    obtain ⟨k, v⟩ := p
    simp only [List.map_cons, List.nodup_cons] at hnd
    by_cases hk : k = x
    · subst hk
      have hrest : rest.map (fun p => if p.1 = k then (p.1, p.2 + w) else p) = rest := by
        have h1 : ∀ q ∈ rest, (if q.1 = k then (q.1, q.2 + w) else q) = q := by
          intro q hq
          have hq1 : q.1 ≠ k := by
            intro he
            exact hnd.1 (he ▸ List.mem_map_of_mem Prod.fst hq)
          simp [hq1]
        calc rest.map (fun p => if p.1 = k then (p.1, p.2 + w) else p)
            = rest.map (fun q => q) := List.map_congr_left h1
          _ = rest := by simp
      simp [bump, hrest]
    · have hx' : x ∈ rest.map Prod.fst := by
        rcases List.mem_cons.mp hx with h | h
        · exact absurd h.symm hk
        · exact h
      simp only [bump, if_neg hk, List.map_cons, if_neg hk]
      rw [ih hnd.2 hx']

lemma bump_absent (acc : List (Str × ℚ)) (x : Str) (w : ℚ)
    (hx : x ∉ acc.map Prod.fst) :
    bump acc x w = acc ++ [(x, w)] := by
  induction acc with
  | nil => rfl
  | cons p rest ih =>
    obtain ⟨k, v⟩ := p
    have hk : k ≠ x := by
      intro he
      exact hx (by simp [he])
    simp only [bump, if_neg hk, List.cons_append]
    rw [ih (fun hm => hx (List.mem_cons_of_mem _ hm))]

/-- Characterization of the `rank_items` fold: existing entries keep their
position and gain this list's reciprocal-rank contribution; ids seen for the
first time are appended in first-occurrence order with their contribution. -/
lemma rank_items_spec (w : ℚ) (l : List Str) : ∀ (r : ℕ) (acc : List (Str × ℚ)),
    (acc.map Prod.fst).Nodup → (∀ p ∈ acc, p.1 ≠ ([] : Str)) →
    rank_items w l r acc
      = acc.map (fun p => (p.1, p.2 + rrf_contrib w l r p.1))
        ++ (dedup_first (l.filter
            (fun x => decide (x ≠ [] ∧ x ∉ acc.map Prod.fst)))).map
            (fun id => (id, rrf_contrib w l r id)) := by
  induction l with
  | nil =>
    intro r acc hnd hne
    simp only [rank_items, rrf_contrib, List.filter_nil, dedup_first,
      List.map_nil, List.append_nil]
    refine Eq.symm ?_
    calc acc.map (fun p => (p.1, p.2 + (0 : ℚ)))
        = acc.map (fun p => p) := by
          refine List.map_congr_left ?_
          intro p hp
          simp
      _ = acc := by simp
  | cons x rest ih =>
    intro r acc hnd hne
    by_cases hx0 : x = ([] : Str)
    · subst hx0
      have hstep : rank_items w ([] :: rest) r acc
          = rank_items w rest (r + 1) acc := by
        simp [rank_items]
      rw [hstep, ih (r + 1) acc hnd hne]
      have hfil : (([] : Str) :: rest).filter
            (fun x => decide (x ≠ [] ∧ x ∉ acc.map Prod.fst))
          = rest.filter (fun x => decide (x ≠ [] ∧ x ∉ acc.map Prod.fst)) := by
        simp [List.filter_cons]
      rw [hfil]
      congr 1
      · refine List.map_congr_left ?_
        intro p hp
        have hp1 : ¬ (([] : Str) = p.1) := fun h => hne p hp h.symm
        simp only [rrf_contrib, if_neg hp1, zero_add]
      · refine List.map_congr_left ?_
        intro id hid
        have hid' := List.mem_filter.mp ((mem_dedup_first id _).mp hid)
        have hid0 : id ≠ ([] : Str) := by
          have := hid'.2
          simp only [decide_eq_true_eq] at this
          exact this.1
        have hne0 : ¬ (([] : Str) = id) := fun h => hid0 h.symm
        simp only [rrf_contrib, if_neg hne0, zero_add]
    · have hstep : rank_items w (x :: rest) r acc
          = rank_items w rest (r + 1) (bump acc x (w / ((r : ℚ) + 1))) := by
        simp [rank_items, hx0]
      by_cases hmem : x ∈ acc.map Prod.fst
      · have hbump := bump_present acc x (w / ((r : ℚ) + 1)) hnd hmem
        have hkeys : (acc.map
              (fun p => if p.1 = x then (p.1, p.2 + w / ((r : ℚ) + 1)) else p)).map
              Prod.fst = acc.map Prod.fst := by
          rw [List.map_map]
          refine List.map_congr_left ?_
          intro p hp
          by_cases hpx : p.1 = x <;> simp [hpx]
        have hnd' : ((acc.map
              (fun p => if p.1 = x then (p.1, p.2 + w / ((r : ℚ) + 1)) else p)).map
              Prod.fst).Nodup := by
          rw [hkeys]; exact hnd
        have hne' : ∀ p ∈ acc.map
              (fun p => if p.1 = x then (p.1, p.2 + w / ((r : ℚ) + 1)) else p),
              p.1 ≠ ([] : Str) := by
          intro p hp
          obtain ⟨q, hq, hqe⟩ := List.mem_map.mp hp
          have hq1 := hne q hq
          by_cases hqx : q.1 = x
          · rw [← hqe]; simpa [hqx] using (hqx ▸ hq1)
          · rw [← hqe]; simpa [hqx] using hq1
        rw [hstep, hbump, ih (r + 1) _ hnd' hne', hkeys]
        have hfil : ((x :: rest).filter
              (fun y => decide (y ≠ [] ∧ y ∉ acc.map Prod.fst)))
            = rest.filter (fun y => decide (y ≠ [] ∧ y ∉ acc.map Prod.fst)) := by
          simp [List.filter_cons, hmem]
        rw [hfil]
        congr 1
        · rw [List.map_map]
          refine List.map_congr_left ?_
          intro p hp
          by_cases hpx : p.1 = x
          · have hxp : x = p.1 := hpx.symm
            simp only [Function.comp, if_pos hpx, rrf_contrib, if_pos hxp]
            rw [add_assoc]
          · have hxp : ¬ (x = p.1) := fun h => hpx h.symm
            simp only [Function.comp, if_neg hpx, rrf_contrib, if_neg hxp, zero_add]
        · refine List.map_congr_left ?_
          intro id hid
          have hid' := List.mem_filter.mp ((mem_dedup_first id _).mp hid)
          have hidk : id ∉ acc.map Prod.fst := by
            have := hid'.2
            simp only [decide_eq_true_eq] at this
            exact this.2
          have hidx : ¬ (x = id) := fun h => hidk (h ▸ hmem)
          simp only [rrf_contrib, if_neg hidx, zero_add]
      · have hbump := bump_absent acc x (w / ((r : ℚ) + 1)) hmem
        have hkeys : ((acc ++ [(x, w / ((r : ℚ) + 1))]).map Prod.fst)
            = acc.map Prod.fst ++ [x] := by
          simp
        have hnd' : (((acc ++ [(x, w / ((r : ℚ) + 1))]).map Prod.fst)).Nodup := by
          rw [hkeys, List.nodup_append]
          refine ⟨hnd, List.nodup_singleton x, ?_⟩
          intro a ha hb
          simp only [List.mem_singleton] at hb
          subst hb
          exact hmem ha
        have hne' : ∀ p ∈ acc ++ [(x, w / ((r : ℚ) + 1))], p.1 ≠ ([] : Str) := by
          intro p hp
          rcases List.mem_append.mp hp with hp | hp
          · exact hne p hp
          · simp only [List.mem_singleton] at hp
            subst hp
            exact hx0
        rw [hstep, hbump, ih (r + 1) _ hnd' hne', hkeys]
        have hfilx : ((x :: rest).filter
              (fun y => decide (y ≠ [] ∧ y ∉ acc.map Prod.fst)))
            = x :: rest.filter (fun y => decide (y ≠ [] ∧ y ∉ acc.map Prod.fst)) := by
          simp [List.filter_cons, hx0, hmem]
        rw [hfilx]
        have hded : dedup_first (x :: rest.filter
              (fun y => decide (y ≠ [] ∧ y ∉ acc.map Prod.fst)))
            = x :: (dedup_first (rest.filter
                (fun y => decide (y ≠ [] ∧ y ∉ acc.map Prod.fst)))).filter
                (fun y => decide (y ≠ x)) := rfl
        rw [hded]
        have hrestfil : rest.filter
              (fun y => decide (y ≠ [] ∧ y ∉ acc.map Prod.fst ++ [x]))
            = (rest.filter
                (fun y => decide (y ≠ [] ∧ y ∉ acc.map Prod.fst))).filter
                (fun y => decide (y ≠ x)) := by
          rw [List.filter_filter]
          refine List.filter_congr ?_
          intro a ha
          by_cases ha0 : a = ([] : Str)
          · simp [ha0]
          · by_cases hak : a ∈ acc.map Prod.fst
            · have hax : ¬ (a = x) := fun h => hmem (h ▸ hak)
              simp [ha0, hak, hax]
            · by_cases hax : a = x <;> simp [ha0, hak, hax]
        rw [hrestfil, dedup_first_filter]
        rw [List.map_append]
        have hsingle : ([(x, w / ((r : ℚ) + 1))].map
              (fun p => (p.1, p.2 + rrf_contrib w rest (r + 1) p.1)))
            = [(x, rrf_contrib w (x :: rest) r x)] := by
          simp [rrf_contrib]
        rw [hsingle, List.append_assoc, List.singleton_append, List.map_cons]
        congr 1
        · refine List.map_congr_left ?_
          intro p hp
          have hpk : p.1 ∈ acc.map Prod.fst := List.mem_map_of_mem Prod.fst hp
          have hpx : ¬ (x = p.1) := fun h => hmem (h ▸ hpk)
          simp only [rrf_contrib, if_neg hpx, zero_add]
        · congr 1
          refine List.map_congr_left ?_
          intro id hid
          have hidx : id ≠ x := by
            have := (List.mem_filter.mp hid).2
            simpa using this
          have hxid : ¬ (x = id) := fun h => hidx h.symm
          simp only [rrf_contrib, if_neg hxid, zero_add]

/-- The accumulated score table equals the spec's description: one entry per
distinct non-falsy id in first-retrieval order (text list first), scored by
the two reciprocal-rank contributions. -/
lemma fuse_scores_spec (text_hits vector_hits : List Str) :
    fuse_scores text_hits vector_hits
      = (dedup_first ((text_hits ++ vector_hits).filter
            (fun x => decide (x ≠ [])))).map
          (fun id => (id, rrf_score text_hits vector_hits id)) := by
  have hstep1 : rank_items 1 text_hits 1 []
      = (dedup_first (text_hits.filter (fun x => decide (x ≠ [])))).map
          (fun id => (id, rrf_contrib 1 text_hits 1 id)) := by
    rw [rank_items_spec 1 text_hits 1 [] (by simp) (by simp)]
    simp only [List.map_nil, List.nil_append]
    congr 2
    refine List.filter_congr ?_
    intro a ha
    simp
  have hkeys : (((dedup_first (text_hits.filter (fun x => decide (x ≠ [])))).map
        (fun id => (id, rrf_contrib 1 text_hits 1 id))).map Prod.fst)
      = dedup_first (text_hits.filter (fun x => decide (x ≠ []))) := by
    rw [List.map_map]
    have hco : (Prod.fst ∘ fun id : Str => (id, rrf_contrib 1 text_hits 1 id))
        = fun a => a := rfl
    rw [hco]
    exact List.map_id' _
  have hnd' : ((((dedup_first (text_hits.filter (fun x => decide (x ≠ [])))).map
        (fun id => (id, rrf_contrib 1 text_hits 1 id))).map Prod.fst)).Nodup := by
    rw [hkeys]
    exact nodup_dedup_first _
  have hne' : ∀ p ∈ (dedup_first (text_hits.filter (fun x => decide (x ≠ [])))).map
        (fun id => (id, rrf_contrib 1 text_hits 1 id)), p.1 ≠ ([] : Str) := by
    intro p hp
    obtain ⟨id, hid, hide⟩ := List.mem_map.mp hp
    have hx := (List.mem_filter.mp ((mem_dedup_first id _).mp hid)).2
    simp only [decide_eq_true_eq] at hx
    rw [← hide]
    exact hx
  unfold fuse_scores
  rw [hstep1, rank_items_spec 1 vector_hits 1 _ hnd' hne', hkeys]
  have hrhs : dedup_first ((text_hits ++ vector_hits).filter (fun x => decide (x ≠ [])))
      = dedup_first (text_hits.filter (fun x => decide (x ≠ [])))
        ++ (dedup_first (vector_hits.filter (fun x => decide (x ≠ [])))).filter
            (fun y => decide (y ∉ text_hits.filter (fun x => decide (x ≠ [])))) := by
    rw [List.filter_append, dedup_first_append]
    congr 1
    refine List.filter_congr ?_
    intro b hb
    exact decide_eq_decide.mpr Iff.rfl
  rw [hrhs, List.map_append]
  congr 1
  · rw [List.map_map]
    refine List.map_congr_left ?_
    intro id hid
    simp [rrf_score]
  · have hl1 : vector_hits.filter
        (fun y => decide (y ≠ [] ∧
          y ∉ dedup_first (text_hits.filter (fun x => decide (x ≠ [])))))
        = (vector_hits.filter (fun x => decide (x ≠ []))).filter
            (fun y => decide
              (y ∉ dedup_first (text_hits.filter (fun x => decide (x ≠ []))))) := by
      rw [List.filter_filter]
      refine List.filter_congr ?_
      intro a ha
      by_cases ha0 : a = ([] : Str)
      · simp [ha0]
      · by_cases had : a ∈ dedup_first (text_hits.filter (fun x => decide (x ≠ [])))
          <;> simp [ha0, had]
    rw [hl1, dedup_first_filter]
    have hl2 : (dedup_first (vector_hits.filter (fun x => decide (x ≠ [])))).filter
          (fun y => decide
            (y ∉ dedup_first (text_hits.filter (fun x => decide (x ≠ [])))))
        = (dedup_first (vector_hits.filter (fun x => decide (x ≠ [])))).filter
            (fun y => decide (y ∉ text_hits.filter (fun x => decide (x ≠ [])))) := by
      refine List.filter_congr ?_
      intro a ha
      refine decide_eq_decide.mpr ?_
      rw [mem_dedup_first]
    rw [hl2]
    refine List.map_congr_left ?_
    intro id hid
    have hid1 := List.mem_filter.mp hid
    have hidv := (mem_dedup_first id _).mp hid1.1
    have hid0 : id ≠ ([] : Str) := by
      have := (List.mem_filter.mp hidv).2
      simpa using this
    have hidt : id ∉ text_hits := by
      have h2 := hid1.2
      simp only [decide_eq_true_eq] at h2
      intro hmem
      exact h2 (List.mem_filter.mpr ⟨hmem, by simpa using hid0⟩)
    rw [rrf_score, rrf_contrib_of_not_mem 1 text_hits 1 id hidt, zero_add]

lemma mem_insort_desc (x a : Str × ℚ) (l : List (Str × ℚ)) :
    a ∈ insort_desc x l ↔ a = x ∨ a ∈ l := by
  induction l with
  | nil => simp [insort_desc]
  | cons y ys ih =>
    by_cases h : y.2 ≤ x.2
    · simp [insort_desc, h, List.mem_cons]
    · simp only [insort_desc, if_neg h, List.mem_cons, ih]
      tauto

lemma insort_desc_sorted (x : Str × ℚ) (l : List (Str × ℚ))
    (hl : l.Pairwise (fun a b => b.2 ≤ a.2)) :
    (insort_desc x l).Pairwise (fun a b => b.2 ≤ a.2) := by
  induction l with
  | nil => simp [insort_desc]
  | cons y ys ih =>
    rcases List.pairwise_cons.mp hl with ⟨hy, hys⟩
    by_cases h : y.2 ≤ x.2
    · simp only [insort_desc, if_pos h]
      refine List.pairwise_cons.mpr ⟨?_, hl⟩
      intro b hb
      rcases List.mem_cons.mp hb with rfl | hb
      · exact h
      · exact le_trans (hy b hb) h
    · simp only [insort_desc, if_neg h]
      refine List.pairwise_cons.mpr ⟨?_, ih hys⟩
      intro b hb
      rcases (mem_insort_desc x b ys).mp hb with rfl | hb
      · exact le_of_lt (lt_of_not_le h)
      · exact hy b hb

/-- The fused ranking is sorted by non-increasing accumulated score. -/
lemma sort_desc_sorted (l : List (Str × ℚ)) :
    (sort_desc l).Pairwise (fun a b => b.2 ≤ a.2) := by
  unfold sort_desc
  induction l with
  | nil => simp
  | cons x xs ih =>
    simp only [List.foldr_cons]
    exact insort_desc_sorted x _ ih

/-- C1 counterexample: on lexical ranking `[A,B,C]` and vector ranking
`[B,A,D]` the accumulated scores of A and B tie at `5/6`, and the stable sort
keeps A — first seen at lexical rank 1 — in front, so the fused order is
`[A, B, C, D]`: A is ranked above B, not B above A as the claim states. -/
theorem hybrid_fusion_tie_counterexample :
    hybrid_fuse [['A'], ['B'], ['C']] [['B'], ['A'], ['D']] 10 0
      = [['A'], ['B'], ['C'], ['D']]
    ∧ (['A'] : Str) ≠ ['B'] := by
  constructor
  · norm_num +decide [hybrid_fuse, fuse_scores, rank_items, bump, sort_desc,
      insort_desc]
  · decide

/-- C1 (amended): the two sub-searches each fetch `limit + offset` candidates
with internal offset 0; each document's fused score is the sum over the lists
containing it of `weight / (r + 1)` with weight 1.0; documents are ordered by
descending accumulated score with ties broken by original retrieval order
(stable sort) and the slice `[offset, offset + limit)` is returned.  On
lexical `[A,B,C]` and vector `[B,A,D]` the fused order ranks A above B (their
scores tie and A was retrieved first), and both above C and D. -/
theorem hybrid_fusion_amended (text_search vector_search_fn : ℕ → ℕ → List Str)
    (limit offset : ℕ) :
    hybrid_search text_search vector_search_fn limit offset
      = fuse_spec (text_search (limit + offset) 0)
          (vector_search_fn (limit + offset) 0) limit offset
    ∧ (sort_desc (fuse_scores (text_search (limit + offset) 0)
          (vector_search_fn (limit + offset) 0))).Pairwise
        (fun a b => b.2 ≤ a.2)
    ∧ hybrid_fuse [['A'], ['B'], ['C']] [['B'], ['A'], ['D']] 10 0
      = [['A'], ['B'], ['C'], ['D']] := by
  refine ⟨?_, sort_desc_sorted _, ?_⟩
  · unfold hybrid_search hybrid_fuse fuse_spec
    rw [fuse_scores_spec]
  · norm_num +decide [hybrid_fuse, fuse_scores, rank_items, bump, sort_desc,
      insort_desc]

/-! ### Listing namespaces (`_handle_list_namespaces`), claim C8 -/

/-- Stable insertion step for an ascending sort by a boolean comparator. -/
def insort_by {α : Type} (le : α → α → Bool) (x : α) : List α → List α
  | [] => [x]
  | y :: ys => if le x y then x :: y :: ys else y :: insort_by le x ys

/-- Python `sorted(l)`: a stable ascending sort. -/
def sort_by {α : Type} (le : α → α → Bool) (l : List α) : List α :=
  l.foldr (insort_by le) []

lemma perm_insort_by {α : Type} (le : α → α → Bool) (x : α) (l : List α) :
    List.Perm (insort_by le x l) (x :: l) := by
  induction l with
  | nil => rfl
  | cons y ys ih =>
    by_cases h : le x y
    · simp [insort_by, h]
    · simp only [insort_by, if_neg h]
      exact (ih.cons y).trans (List.Perm.swap x y ys)

lemma perm_sort_by {α : Type} (le : α → α → Bool) (l : List α) :
    List.Perm (sort_by le l) l := by
  induction l with
  | nil => rfl
  | cons x xs ih =>
    simp only [sort_by, List.foldr_cons]
    exact (perm_insort_by le x _).trans (ih.cons x)

lemma mem_insort_by {α : Type} (le : α → α → Bool) (x a : α) (l : List α) :
    a ∈ insort_by le x l ↔ a = x ∨ a ∈ l := by
  rw [(perm_insort_by le x l).mem_iff]
  simp

lemma sorted_insort_le {α : Type} [LinearOrder α] (x : α) (l : List α)
    (hl : l.Pairwise (· ≤ ·)) :
    (insort_by (fun a b => decide (a ≤ b)) x l).Pairwise (· ≤ ·) := by
  induction l with
  | nil => simp [insort_by]
  | cons y ys ih =>
    rcases List.pairwise_cons.mp hl with ⟨hy, hys⟩
    by_cases h : x ≤ y
    · simp only [insort_by, decide_eq_true_eq, if_pos h]
      refine List.pairwise_cons.mpr ⟨?_, hl⟩
      intro b hb
      rcases List.mem_cons.mp hb with rfl | hb
      · exact h
      · exact le_trans h (hy b hb)
    · have hd : ¬ (decide (x ≤ y) = true) := by simpa using h
      simp only [insort_by, if_neg hd]
      refine List.pairwise_cons.mpr ⟨?_, ih hys⟩
      intro b hb
      rcases (mem_insort_by _ x b ys).mp hb with rfl | hb
      · exact le_of_not_le h
      · exact hy b hb

lemma sorted_sort_le {α : Type} [LinearOrder α] (l : List α) :
    (sort_by (fun a b => decide (a ≤ b)) l).Pairwise (· ≤ ·) := by
  induction l with
  | nil => simp [sort_by]
  | cons x xs ih =>
    simp only [sort_by, List.foldr_cons]
    exact sorted_insort_le x _ ih

/-- Two permutations of the same elements sort to the same list. -/
lemma sort_le_eq_of_perm {α : Type} [LinearOrder α] {A B : List α} (h : List.Perm A B) :
    sort_by (fun a b => decide (a ≤ b)) A
      = sort_by (fun a b => decide (a ≤ b)) B :=
  List.eq_of_perm_of_sorted
    ((perm_sort_by _ A).trans (h.trans (perm_sort_by _ B).symm))
    (sorted_sort_le A) (sorted_sort_le B)

/-- De-duplication of permuted lists yields permuted (nodup) lists. -/
lemma dedup_first_perm {α : Type} [DecidableEq α] {A B : List α} (h : List.Perm A B) :
    List.Perm (dedup_first A) (dedup_first B) := by
  refine List.perm_of_nodup_nodup_toFinset_eq
    (nodup_dedup_first A) (nodup_dedup_first B) ?_
  ext a
  simp only [List.mem_toFinset, mem_dedup_first]
  exact h.mem_iff

/-- A listing match condition's type (the `match_type` string compared
against `"prefix"` / `"suffix"` in `_extract_condition`). -/
inductive MatchType where
  | pre
  | suf
deriving DecidableEq

/-- A listing `MatchCondition`: a match type plus a namespace path. -/
structure MatchCond where
  match_type : MatchType
  path : List Str

/-- The wildcard segment `"*"` stripped by `_extract_condition`. -/
def star : Str := ['*']

/-- `_extract_condition`: the first condition of the requested type whose
path, with `"*"` segments stripped, is nonempty. -/
def extract_condition : List MatchCond → MatchType → Option (List Str)
  | [], _ => none
  | c :: rest, mt =>
    if c.match_type = mt then
      if c.path.filter (fun seg => decide (seg ≠ star)) = [] then
        extract_condition rest mt
      else some (c.path.filter (fun seg => decide (seg ≠ star)))
    else extract_condition rest mt

/-- `_suffix_matches`: an empty suffix matches everything; otherwise the
namespace's last `len(suffix)` segments must equal the suffix. -/
def suffix_matches (ns suffix : List Str) : Bool :=
  if suffix = [] then true
  else if ns.length < suffix.length then false
  else decide (ns.drop (ns.length - suffix.length) = suffix)

/-- The engine's server-side prefix predicate: a string-prefix test on the
`"::"`-joined `namespace_key`. -/
def ns_key_starts_with (prefix_path : Option (List Str)) (ns : List Str) : Bool :=
  match prefix_path with
  | none => true
  | some p => (namespace_key p).isPrefixOf (namespace_key ns)

/-- Truncation to `max_depth` when one is given. -/
def truncate_depth (max_depth : Option ℕ) (ns : List Str) : List Str :=
  match max_depth with
  | none => ns
  | some d => if d < ns.length then ns.take d else ns

/-- The per-hit client-side post-processing of `_handle_list_namespaces`:
drop hits failing the suffix condition, then truncate to `max_depth`. -/
def post_process (suffix_path : Option (List Str)) (max_depth : Option ℕ)
    (ns : List Str) : Option (List Str) :=
  match suffix_path with
  | some sp =>
    if suffix_matches ns sp then some (truncate_depth max_depth ns) else none
  | none => some (truncate_depth max_depth ns)

/-- The namespace index query issued by `_handle_list_namespaces`: prefix
filter, ascending sort on `namespace_key`, top `size` hits. -/
def server_namespace_hits (index : List (List Str))
    (prefix_path : Option (List Str)) (size : ℕ) : List (List Str) :=
  ((sort_by (fun a b => decide (namespace_key a ≤ namespace_key b))
      (index.filter (ns_key_starts_with prefix_path))).take size)

/-- Python slice `namespaces[start:end]` with `start = min(offset, len)` and
`end = min(start + limit, len)`. -/
def paginate_py {α : Type} (uniq : List α) (limit offset : ℕ) : List α :=
  (uniq.drop (min offset uniq.length)).take
    (min (min offset uniq.length + limit) uniq.length - min offset uniq.length)

/-- `_handle_list_namespaces` over the namespace-index content `index`, with
`size = min(max(limit + offset, 50), 1000)`. -/
def handle_list_namespaces (index : List (List Str)) (conds : List MatchCond)
    (max_depth : Option ℕ) (limit offset : ℕ) : List (List Str) :=
  paginate_py
    (sort_by (fun a b => decide (a ≤ b))
      (dedup_first
        ((server_namespace_hits index (extract_condition conds .pre)
            (min (max (limit + offset) 50) 1000)).filterMap
          (post_process (extract_condition conds .suf) max_depth))))
    limit offset

/-- Modelled from the spec: namespaces matching the prefix predicate,
post-filtered client-side by the suffix condition, truncated to `max_depth`,
de-duplicated, sorted lexicographically by segment tuple, and paginated by
offset/limit after all filtering. -/
def list_namespaces_spec (index : List (List Str)) (conds : List MatchCond)
    (max_depth : Option ℕ) (limit offset : ℕ) : List (List Str) :=
  (((sort_by (fun a b => decide (a ≤ b))
      (dedup_first
        ((index.filter (ns_key_starts_with (extract_condition conds .pre))).filterMap
          (post_process (extract_condition conds .suf) max_depth)))).drop
    offset).take limit)

/-- The Python slice with clamped bounds equals plain drop-then-take. -/
lemma paginate_py_eq {α : Type} (U : List α) (limit offset : ℕ) :
    paginate_py U limit offset = (U.drop offset).take limit := by
  unfold paginate_py
  by_cases h : offset ≤ U.length
  · rw [min_eq_left h]
    rw [List.take_eq_take]
    rw [List.length_drop]
    omega
  · push_neg at h
    have hle : U.length ≤ offset := le_of_lt h
    rw [min_eq_right hle]
    rw [List.drop_length, List.drop_eq_nil_of_le hle]
    simp

/-- The engine page truncates: 50 namespaces `("a0"), ("a1"), ...` that sort
below `("z","b")`, plus `("z","b")` itself — 51 index entries in total. -/
def big_index : List (List Str) :=
  (List.range 50).map (fun i => [['a', Char.ofNat (48 + i)]]) ++ [[['z'], ['b']]]

/-- C8 counterexample: with 51 matching index entries and
`size = min(max(10 + 0, 50), 1000) = 50`, the engine page drops the
lexicographically largest hit `("z","b")` — the only one matching the suffix
condition `("b",)` — before the client-side suffix filter runs, so the code
returns `[]` while the claimed pipeline returns `("z","b")`. -/
theorem list_namespaces_truncation_counterexample :
    handle_list_namespaces big_index
      [{ match_type := .suf, path := [['b']] }] none 10 0 = []
    ∧ list_namespaces_spec big_index
      [{ match_type := .suf, path := [['b']] }] none 10 0 = [[['z'], ['b']]]
    ∧ ([] : List (List Str)) ≠ [[['z'], ['b']]] := by
  refine ⟨?_, ?_, by decide⟩ <;> decide

/-- C8 (amended): whenever every namespace entry matching the server-side
prefix predicate fits in the engine page (`size = min(max(limit + offset,
50), 1000)`), the listing equals the spec's pipeline — prefix filter, suffix
post-filter, depth truncation, first-occurrence de-duplication,
lexicographic sort by segment tuple, then offset/limit pagination; with more
matching entries than `size` the page truncates the hits before the suffix
filter, de-duplication and pagination, and the equality can fail.  On
namespaces `("a","b"), ("a","c"), ("x","b")` a prefix condition `("a",)`
yields exactly the first two while a suffix condition `("b",)` yields
`("a","b")` and `("x","b")`. -/
theorem list_namespaces_correct (index : List (List Str)) (conds : List MatchCond)
    (max_depth : Option ℕ) (limit offset : ℕ)
    (hfit : (index.filter
        (ns_key_starts_with (extract_condition conds MatchType.pre))).length
      ≤ min (max (limit + offset) 50) 1000) :
    handle_list_namespaces index conds max_depth limit offset
      = list_namespaces_spec index conds max_depth limit offset
    ∧ handle_list_namespaces [[['a'], ['b']], [['a'], ['c']], [['x'], ['b']]]
        [{ match_type := .pre, path := [['a']] }] none 10 0
      = [[['a'], ['b']], [['a'], ['c']]]
    ∧ handle_list_namespaces [[['a'], ['b']], [['a'], ['c']], [['x'], ['b']]]
        [{ match_type := .suf, path := [['b']] }] none 10 0
      = [[['a'], ['b']], [['x'], ['b']]] := by
  refine ⟨?_, by decide, by decide⟩
  unfold handle_list_namespaces list_namespaces_spec server_namespace_hits
  have htake : (sort_by (fun a b => decide (namespace_key a ≤ namespace_key b))
        (index.filter (ns_key_starts_with (extract_condition conds MatchType.pre)))).take
        (min (max (limit + offset) 50) 1000)
      = sort_by (fun a b => decide (namespace_key a ≤ namespace_key b))
          (index.filter (ns_key_starts_with (extract_condition conds MatchType.pre))) := by
    refine List.take_of_length_le ?_
    rw [(perm_sort_by _ _).length_eq]
    exact hfit
  rw [htake]
  have hperm := perm_sort_by (fun a b => decide (namespace_key a ≤ namespace_key b))
    (index.filter (ns_key_starts_with (extract_condition conds MatchType.pre)))
  have hsorteq := sort_le_eq_of_perm
    (dedup_first_perm
      (hperm.filterMap (post_process (extract_condition conds MatchType.suf) max_depth)))
  rw [hsorteq, paginate_py_eq]

/-- Witness for the amended C8 theorem at a concrete three-namespace index. -/
theorem list_namespaces_witness :
    handle_list_namespaces [[['a'], ['b']], [['a'], ['c']], [['x'], ['b']]]
        [{ match_type := .pre, path := [['a']] }] none 10 0
      = list_namespaces_spec [[['a'], ['b']], [['a'], ['c']], [['x'], ['b']]]
          [{ match_type := .pre, path := [['a']] }] none 10 0
    ∧ handle_list_namespaces [[['a'], ['b']], [['a'], ['c']], [['x'], ['b']]]
        [{ match_type := .pre, path := [['a']] }] none 10 0
      = [[['a'], ['b']], [['a'], ['c']]] :=
  ⟨(list_namespaces_correct [[['a'], ['b']], [['a'], ['c']], [['x'], ['b']]]
      [{ match_type := .pre, path := [['a']] }] none 10 0 (by decide)).1,
   (list_namespaces_correct [[['a'], ['b']], [['a'], ['c']], [['x'], ['b']]]
      [{ match_type := .pre, path := [['a']] }] none 10 0 (by decide)).2.1⟩

end OpenSearchStore
